import Mathlib

/-!
Verification of the NetConsole client session controller (console.js),
its output rendering (appendMessage), the remote-session database
constraints (netc_createdb.pl), and the remote transaction protocol
(NetC::Remote).

The JavaScript client is embedded shallowly: the module-level mutable
variables (m_processing, m_stop_request, m_login, m_server) together
with the set of allocated NetC display instances form an explicit state
record `CState`; every event handler and every NetC prototype method
becomes a Lean function from states to states paired with a list of
observable effects (server invocations, login callbacks, thrown state
errors).  Strings are represented as lists of characters and servers by
numeric identifiers.
-/

namespace NetConsole

/-- A DOM node produced by appendMessage inside the new paragraph:
either a br element or a text node. -/
inductive Node where
  | br : Node
  | text : List Char → Node
deriving DecidableEq

/-- The U+000A line-feed character tested by appendMessage. -/
def nl : Char := '\n'

/-- The while-loop of appendMessage (console.js): consume the string,
emitting a br element for each leading U+000A and otherwise a text node
holding the maximal run of characters before the next U+000A. -/
def renderNodes : List Char → List Node
  | [] => []
  | c :: rest =>
    if c = nl then Node.br :: renderNodes rest
    else Node.text (c :: rest.takeWhile (fun ch => ch ≠ nl)) ::
         renderNodes (rest.dropWhile (fun ch => ch ≠ nl))
termination_by l => l.length
decreasing_by
  · simp
  · simp only [List.length_cons, Nat.lt_succ_iff]
    exact (List.dropWhile_sublist _).length_le

/-- One block appended to the divOutput console: a p element carrying
the server/client CSS class and its child nodes (appendMessage), or a
copy-to-clipboard token button (appendCopyToken). -/
inductive Block where
  | para : Bool → List Node → Block
  | tokenBtn : List Char → Block
deriving DecidableEq

/-- appendMessage (console.js): client messages get the prompt prefix
of a right-angle quote and a space, then the text is rendered into a
new paragraph appended to the output. -/
def appendMessage (out : List Block) (t : List Char) (isServer : Bool) :
    List Block :=
  let t2 := if isServer then t else '»' :: ' ' :: t
  out ++ [Block.para isServer (renderNodes t2)]

/-- appendCopyToken (console.js): appends a token button block. -/
def appendCopyToken (out : List Block) (t : List Char) : List Block :=
  out ++ [Block.tokenBtn t]

/-- Per-instance state of a NetC display object (the NetC constructor
in console.js): the _completed, _replace, _server and _login fields.
Servers are identified by numbers; _server is none until updateServer
stores one. -/
structure Inst where
  completed : Bool
  replace : Bool
  server : Option Nat
  login : Bool
deriving DecidableEq

/-- A freshly constructed NetC instance (new NetC()). -/
def Inst.fresh : Inst :=
  { completed := false, replace := false, server := none, login := false }

/-- Global client state: the module-level variables of console.js
(m_processing, m_stop_request, m_login, the login callbacks represented
by the owning instance, m_server) plus the allocated NetC instances
(indexed by allocation order), the console output and the text input
box. -/
structure CState where
  processing : Bool
  stopRequest : Bool
  login : Bool
  loginOwner : Option Nat
  loginSite : List Char
  server : Nat
  insts : List Inst
  output : List Block
  inputBox : List Char
deriving DecidableEq

/-- Look up a NetC instance by its identifier. -/
def getInst (s : CState) (i : Nat) : Option Inst := s.insts[i]?

/-- The common state check of every NetC prototype method:
(!m_processing) || this._completed || this._login. -/
def methodBlocked (s : CState) (inst : Inst) : Bool :=
  !s.processing || inst.completed || inst.login

/-- Observable effects of one step: invoking a server operation
(handleMessage / handleInit), invoking a login callback supplied via
showLogin, returning the stop flag from checkStop, or an exception
(fault / state error) propagating out of the handler. -/
inductive Eff where
  | handleMessage : Nat → Nat → List Char → Eff
  | handleInit : Nat → Nat → Eff
  | cbDone : Nat → List Char → List Char → Eff
  | cbCancel : Nat → Eff
  | retStop : Bool → Eff
  | threw : Eff
deriving DecidableEq

/-- handleStop (console.js): the Stop button handler. -/
def handleStop (s : CState) : CState × List Eff :=
  if s.login then (s, [])
  else if !s.processing then (s, [])
  else if s.stopRequest then (s, [])
  else
    ({ s with stopRequest := true,
              output := appendMessage s.output
                          "Client requested a STOP... «".data false }, [])

/-- handleSend (console.js): the Send button handler.  The message is
the current content of the txtInput box; on success a fresh NetC
instance is allocated and m_server.handleMessage is invoked with it. -/
def handleSend (s : CState) : CState × List Eff :=
  if s.login then (s, [])
  else if s.processing then (s, [])
  else
    ({ s with output := appendMessage s.output s.inputBox false,
              processing := true, stopRequest := false,
              insts := s.insts ++ [Inst.fresh] },
     [Eff.handleMessage s.server s.insts.length s.inputBox])

/-- doLogin (console.js): faults when m_login is already set, otherwise
records the login state and switches to the login screen.  The stored
m_login_done / m_login_cancel closures are represented by the identity
of the NetC instance that opened the login (loginOwner). -/
def doLogin (s : CState) (i : Nat) (site : List Char) : CState × List Eff :=
  if s.login then (s, [Eff.threw])
  else ({ s with login := true, loginOwner := some i, loginSite := site }, [])

/-- handleLoginResponse (console.js): resolution of the login dialog.
Ignored unless m_login; otherwise m_login is cleared, then the wrapper
closure installed by NetC.showLogin clears the owning instance's _login
flag, and finally exactly one of the server-supplied callbacks is
invoked (recorded as a cbDone / cbCancel effect happening in the
returned state). -/
def handleLoginResponse (s : CState) (rtype : Bool) (u p : List Char) :
    CState × List Eff :=
  if !s.login then (s, [])
  else
    let s1 := { s with login := false }
    match s.loginOwner with
    | none => (s1, [])
    | some i =>
      let s2 :=
        match s.insts[i]? with
        | some inst =>
          { s1 with insts := s.insts.set i { inst with login := false } }
        | none => s1
      if rtype then (s2, [Eff.cbDone i u p]) else (s2, [Eff.cbCancel i])

/-- Typing into the txtInput box: possible only while the control is
enabled, i.e. while m_processing is false (setEnableState). -/
def typeInput (s : CState) (t : List Char) : CState × List Eff :=
  if s.processing then (s, []) else ({ s with inputBox := t }, [])

namespace NetC

/-- NetC.prototype.checkStop (console.js). -/
def checkStop (s : CState) (i : Nat) : CState × List Eff :=
  match getInst s i with
  | none => (s, [Eff.threw])
  | some inst =>
    if methodBlocked s inst then (s, [Eff.threw])
    else (s, [Eff.retStop s.stopRequest])

/-- NetC.prototype.updateServer (console.js): records the replacement
server on the instance; the last call overwrites earlier ones. -/
def updateServer (s : CState) (i srv : Nat) : CState × List Eff :=
  match getInst s i with
  | none => (s, [Eff.threw])
  | some inst =>
    if methodBlocked s inst then (s, [Eff.threw])
    else
      ({ s with insts :=
           s.insts.set i { inst with replace := true, server := some srv } },
       [])

/-- NetC.prototype.showLogin (console.js): after the state check the
instance's _login flag is set, then doLogin runs (which faults when a
login is already active globally — note the _login mutation survives
that fault, exactly as in the source). -/
def showLogin (s : CState) (i : Nat) (site : List Char) : CState × List Eff :=
  match getInst s i with
  | none => (s, [Eff.threw])
  | some inst =>
    if methodBlocked s inst then (s, [Eff.threw])
    else
      doLogin { s with insts := s.insts.set i { inst with login := true } }
        i site

/-- NetC.prototype.cls (console.js): clearConsole. -/
def cls (s : CState) (i : Nat) : CState × List Eff :=
  match getInst s i with
  | none => (s, [Eff.threw])
  | some inst =>
    if methodBlocked s inst then (s, [Eff.threw])
    else ({ s with output := [] }, [])

/-- NetC.prototype.print (console.js): appendMessage with the server
origin mark. -/
def print (s : CState) (i : Nat) (msg : List Char) : CState × List Eff :=
  match getInst s i with
  | none => (s, [Eff.threw])
  | some inst =>
    if methodBlocked s inst then (s, [Eff.threw])
    else ({ s with output := appendMessage s.output msg true }, [])

/-- NetC.prototype.token (console.js): appendCopyToken. -/
def token (s : CState) (i : Nat) (tkstr : List Char) : CState × List Eff :=
  match getInst s i with
  | none => (s, [Eff.threw])
  | some inst =>
    if methodBlocked s inst then (s, [Eff.threw])
    else ({ s with output := appendCopyToken s.output tkstr }, [])

/-- NetC.prototype.complete (console.js): marks the instance completed,
clears m_processing / m_stop_request and the input box; when a
replacement server was recorded, immediately re-enters processing,
swaps m_server and invokes the new server's handleInit with a freshly
allocated NetC instance. -/
def complete (s : CState) (i : Nat) : CState × List Eff :=
  match getInst s i with
  | none => (s, [Eff.threw])
  | some inst =>
    if methodBlocked s inst then (s, [Eff.threw])
    else
      let s1 := { s with insts := s.insts.set i { inst with completed := true },
                         processing := false, stopRequest := false,
                         inputBox := [] }
      if inst.replace then
        ({ s1 with processing := true, stopRequest := false,
                   server := inst.server.getD s1.server,
                   insts := s1.insts ++ [Inst.fresh] },
         [Eff.handleInit (inst.server.getD s1.server) s1.insts.length])
      else (s1, [])

end NetC

/-- The events the client reacts to: the three UI buttons and typing,
plus the NetC methods a server implementation may invoke on a display
instance. -/
inductive Event where
  | userSend : Event
  | userStop : Event
  | userLogin : Bool → List Char → List Char → Event
  | userType : List Char → Event
  | srvCheckStop : Nat → Event
  | srvUpdateServer : Nat → Nat → Event
  | srvShowLogin : Nat → List Char → Event
  | srvCls : Nat → Event
  | srvPrint : Nat → List Char → Event
  | srvToken : Nat → List Char → Event
  | srvComplete : Nat → Event
deriving DecidableEq

/-- One step of the client: dispatch an event to its handler. -/
def step (s : CState) : Event → CState × List Eff
  | Event.userSend => handleSend s
  | Event.userStop => handleStop s
  | Event.userLogin r u p => handleLoginResponse s r u p
  | Event.userType t => typeInput s t
  | Event.srvCheckStop i => NetC.checkStop s i
  | Event.srvUpdateServer i srv => NetC.updateServer s i srv
  | Event.srvShowLogin i site => NetC.showLogin s i site
  | Event.srvCls i => NetC.cls s i
  | Event.srvPrint i m => NetC.print s i m
  | Event.srvToken i t => NetC.token s i t
  | Event.srvComplete i => NetC.complete s i

/-- Run a sequence of events, accumulating the emitted effects. -/
def run (s : CState) : List Event → CState × List Eff
  | [] => (s, [])
  | e :: rest =>
    let r1 := step s e
    let r2 := run r1.1 rest
    (r2.1, r1.2 ++ r2.2)

/-- The identifier of the server returned by bootConsole(). -/
def bootServerId : Nat := 0

/-- The client state established by handleLoad (console.js): processing
starts true to account for start-up processing, no stop request, no
login, the boot server active, and the single NetC instance passed to
the boot server's handleInit. -/
def initState : CState :=
  { processing := true, stopRequest := false, login := false,
    loginOwner := none, loginSite := [], server := bootServerId,
    insts := [Inst.fresh], output := [], inputBox := [] }

/-- The server invocation made at the end of handleLoad:
m_server.handleInit(new NetC()). -/
def initEffects : List Eff := [Eff.handleInit bootServerId 0]

/-- Which NetC instance, if any, an event invokes a method on. -/
def Event.target : Event → Option Nat
  | Event.srvCheckStop i => some i
  | Event.srvUpdateServer i _ => some i
  | Event.srvShowLogin i _ => some i
  | Event.srvCls i => some i
  | Event.srvPrint i _ => some i
  | Event.srvToken i _ => some i
  | Event.srvComplete i => some i
  | _ => none

/-- Whether instance i exists and has its _completed flag set. -/
def instCompleted (s : CState) (i : Nat) : Bool :=
  match getInst s i with
  | some inst => inst.completed
  | none => false

/-- Whether instance i exists and has its _login flag set. -/
def instLogin (s : CState) (i : Nat) : Bool :=
  match getInst s i with
  | some inst => inst.login
  | none => false

/-- Reading a node sequence back as text: br stands for the U+000A
character, a text node for its characters. -/
def flattenNodes : List Node → List Char
  | [] => []
  | Node.br :: rest => nl :: flattenNodes rest
  | Node.text t :: rest => t ++ flattenNodes rest

/-- Whether a node is a text node. -/
def Node.isText : Node → Bool
  | Node.br => false
  | Node.text _ => true

theorem dropWhile_notNl_head (l : List Char) (c : Char)
    (h : (l.dropWhile (fun ch => ch ≠ nl)).head? = some c) : c = nl := by
  induction l with
  | nil => simp [List.dropWhile] at h
  | cons a rest ih =>
    by_cases ha : a = nl
    · subst ha
      simp [List.dropWhile] at h
      exact h.symm
    · rw [List.dropWhile_cons, if_pos (by simpa using ha)] at h
      exact ih h

theorem renderNodes_head_br (l : List Char)
    (hl : ∀ c, l.head? = some c → c = nl) :
    ∀ n, (renderNodes l).head? = some n → n = Node.br := by
  intro n hn
  cases l with
  | nil => simp [renderNodes] at hn
  | cons c rest =>
    have hc : c = nl := hl c rfl
    subst hc
    rw [renderNodes, if_pos rfl] at hn
    simpa using hn.symm

theorem renderNodes_props (l : List Char) :
    flattenNodes (renderNodes l) = l ∧
    (∀ t, Node.text t ∈ renderNodes l → t ≠ [] ∧ nl ∉ t) ∧
    List.Chain' (fun a b => a.isText = false ∨ b.isText = false)
      (renderNodes l) ∧
    (renderNodes l).count Node.br = l.count nl := by
  induction l using renderNodes.induct with
  | case1 => simp [renderNodes, flattenNodes]
  | case2 rest ih =>
    obtain ⟨ih1, ih2, ih3, ih4⟩ := ih
    rw [renderNodes, if_pos rfl]
    refine ⟨?_, ?_, ?_, ?_⟩
    · simp [flattenNodes, ih1]
    · intro t ht
      rcases List.mem_cons.mp ht with h | h
      · exact absurd h (by simp)
      · exact ih2 t h
    · exact List.chain'_cons'.mpr ⟨fun y _ => Or.inl rfl, ih3⟩
    · simp [List.count_cons, ih4]
  | case3 c rest hc ih =>
    obtain ⟨ih1, ih2, ih3, ih4⟩ := ih
    rw [renderNodes, if_neg hc]
    have htk : ∀ x ∈ rest.takeWhile (fun ch => ch ≠ nl), x ≠ nl := by
      intro x hx
      simpa using List.mem_takeWhile_imp hx
    refine ⟨?_, ?_, ?_, ?_⟩
    · simp only [flattenNodes, ih1, List.cons_append]
      rw [List.takeWhile_append_dropWhile]
    · intro t ht
      rcases List.mem_cons.mp ht with h | h
      · have ht2 : t = c :: rest.takeWhile (fun ch => ch ≠ nl) := by
          injection h
        subst ht2
        refine ⟨by simp, ?_⟩
        intro hmem
        rcases List.mem_cons.mp hmem with h2 | h2
        · exact hc h2.symm
        · exact htk nl h2 rfl
      · exact ih2 t h
    · refine List.chain'_cons'.mpr ⟨?_, ih3⟩
      intro y hy
      have : y = Node.br := by
        refine renderNodes_head_br _ ?_ y hy
        intro d hd
        exact dropWhile_notNl_head rest d hd
      subst this
      exact Or.inr rfl
    · have hsplit :
          rest.takeWhile (fun ch => ch ≠ nl) ++
            rest.dropWhile (fun ch => ch ≠ nl) = rest :=
        List.takeWhile_append_dropWhile _ _
      have hcount : rest.count nl =
          (rest.dropWhile (fun ch => ch ≠ nl)).count nl := by
        conv_lhs => rw [← hsplit]
        rw [List.count_append]
        have : (rest.takeWhile (fun ch => ch ≠ nl)).count nl = 0 :=
          List.count_eq_zero.mpr (fun hmem => htk nl hmem rfl)
        omega
      rw [List.count_cons, List.count_cons, if_neg (by simp),
          if_neg (by simpa using hc), ih4, ← hcount]

/-- Claim C7: for every string msg passed to print on a live display,
the appended paragraph renders line-break characters as br elements and
interprets nothing else: reading the nodes back gives msg exactly,
every text node is a nonempty run without U+000A, no two text nodes are
adjacent (each run is maximal), and there is one br per U+000A
character of msg. -/
theorem print_line_breaks (s : CState) (i : Nat) (inst : Inst)
    (msg : List Char) (hg : getInst s i = some inst)
    (hb : methodBlocked s inst = false) :
    (NetC.print s i msg).1.output
        = s.output ++ [Block.para true (renderNodes msg)] ∧
    (NetC.print s i msg).2 = [] ∧
    flattenNodes (renderNodes msg) = msg ∧
    (∀ t, Node.text t ∈ renderNodes msg → t ≠ [] ∧ nl ∉ t) ∧
    List.Chain' (fun a b => a.isText = false ∨ b.isText = false)
      (renderNodes msg) ∧
    (renderNodes msg).count Node.br = msg.count nl := by
  obtain ⟨h1, h2, h3, h4⟩ := renderNodes_props msg
  simp only [NetC.print, hg]
  rw [if_neg (by simp [hb])]
  exact ⟨by simp [appendMessage], rfl, h1, h2, h3, h4⟩

/-- Witness for Claim C7 at a concrete live display and message. -/
theorem print_line_breaks_witness :
    getInst initState 0 = some Inst.fresh ∧
    methodBlocked initState Inst.fresh = false ∧
    ((NetC.print initState 0 "a\nb".data).1.output
        = initState.output ++ [Block.para true (renderNodes "a\nb".data)] ∧
     (NetC.print initState 0 "a\nb".data).2 = [] ∧
     flattenNodes (renderNodes "a\nb".data) = "a\nb".data ∧
     (∀ t, Node.text t ∈ renderNodes "a\nb".data → t ≠ [] ∧ nl ∉ t) ∧
     List.Chain' (fun a b => a.isText = false ∨ b.isText = false)
       (renderNodes "a\nb".data) ∧
     (renderNodes "a\nb".data).count Node.br = "a\nb".data.count nl) :=
  ⟨by decide, by decide,
   print_line_breaks initState 0 Inst.fresh "a\nb".data (by decide) (by decide)⟩

/-- Claim C1: send is a no-op (state unchanged, no effects) unless
processing and loginActive are both false; when it proceeds it records
the outbound text as a client-origin display line, sets
processing=true and stopRequested=false, and invokes
activeServer.handleMessage exactly once with a freshly allocated
display instance; the resulting state is processing, so a second send
before the operation completes is a no-op. -/
theorem send_single_flight (s : CState) :
    (s.processing = true ∨ s.login = true →
      step s Event.userSend = (s, [])) ∧
    (s.processing = false → s.login = false →
      step s Event.userSend =
        ({ s with output := appendMessage s.output s.inputBox false,
                  processing := true, stopRequest := false,
                  insts := s.insts ++ [Inst.fresh] },
         [Eff.handleMessage s.server s.insts.length s.inputBox]) ∧
      getInst s s.insts.length = none ∧
      getInst (step s Event.userSend).1 s.insts.length = some Inst.fresh ∧
      (step s Event.userSend).1.processing = true ∧
      step (step s Event.userSend).1 Event.userSend
        = ((step s Event.userSend).1, [])) := by
  constructor
  · intro h
    rcases h with hp | hl
    · by_cases hl : s.login <;> simp [step, handleSend, hl, hp]
    · simp [step, handleSend, hl]
  · intro hp hl
    have hstep : step s Event.userSend =
        ({ s with output := appendMessage s.output s.inputBox false,
                  processing := true, stopRequest := false,
                  insts := s.insts ++ [Inst.fresh] },
         [Eff.handleMessage s.server s.insts.length s.inputBox]) := by
      simp [step, handleSend, hl, hp]
    refine ⟨hstep, ?_, ?_, ?_, ?_⟩
    · exact List.getElem?_eq_none (Nat.le_refl _)
    · rw [hstep]
      exact List.getElem?_concat_length _ _
    · rw [hstep]
    · rw [hstep]
      simp [step, handleSend]

/-- The client state reached when the boot server's initialization
operation completes: the first idle state, in which the user can
send. -/
def idleState : CState := (step initState (Event.srvComplete 0)).1

/-- Witness for Claim C1: the concrete idle state reached after the
boot operation completed accepts one send and then refuses a second. -/
theorem send_single_flight_witness :
    idleState.processing = false ∧ idleState.login = false ∧
    (step idleState Event.userSend =
        ({ idleState with
             output := appendMessage idleState.output idleState.inputBox
                         false,
             processing := true, stopRequest := false,
             insts := idleState.insts ++ [Inst.fresh] },
         [Eff.handleMessage idleState.server idleState.insts.length
            idleState.inputBox]) ∧
      getInst idleState idleState.insts.length = none ∧
      getInst (step idleState Event.userSend).1 idleState.insts.length
        = some Inst.fresh ∧
      (step idleState Event.userSend).1.processing = true ∧
      step (step idleState Event.userSend).1 Event.userSend
        = ((step idleState Event.userSend).1, [])) :=
  ⟨by decide, by decide,
   (send_single_flight idleState).2 (by decide) (by decide)⟩

/-- Claim C2: while instance i is live for the active operation, a
server calling updateServer(B), then updateServer(C) (the most recent
call winning), then complete() causes exactly one handleInit — of the
last-registered server, on a freshly allocated display instance — with
processing already true again in the state in which that init runs, the
active server swapped, no send accepted until the init operation
completes, and no handleInit of the previously active server when the
replacement differs from it. -/
theorem server_swap (s : CState) (i B C : Nat) (inst : Inst)
    (hp : s.processing = true) (hg : getInst s i = some inst)
    (hco : inst.completed = false) (hli : inst.login = false) :
    (step s (Event.srvUpdateServer i B)).2 = [] ∧
    (step (step s (Event.srvUpdateServer i B)).1
        (Event.srvUpdateServer i C)).2 = [] ∧
    (step (step (step s (Event.srvUpdateServer i B)).1
          (Event.srvUpdateServer i C)).1 (Event.srvComplete i)).2
      = [Eff.handleInit C s.insts.length] ∧
    (step (step (step s (Event.srvUpdateServer i B)).1
          (Event.srvUpdateServer i C)).1
        (Event.srvComplete i)).1.processing = true ∧
    (step (step (step s (Event.srvUpdateServer i B)).1
          (Event.srvUpdateServer i C)).1 (Event.srvComplete i)).1.server
      = C ∧
    getInst (step (step (step s (Event.srvUpdateServer i B)).1
          (Event.srvUpdateServer i C)).1 (Event.srvComplete i)).1
        s.insts.length = some Inst.fresh ∧
    step (step (step (step s (Event.srvUpdateServer i B)).1
          (Event.srvUpdateServer i C)).1 (Event.srvComplete i)).1
        Event.userSend
      = ((step (step (step s (Event.srvUpdateServer i B)).1
            (Event.srvUpdateServer i C)).1 (Event.srvComplete i)).1,
         []) ∧
    (C ≠ s.server → ∀ j,
      Eff.handleInit s.server j ∉
        (step (step (step s (Event.srvUpdateServer i B)).1
            (Event.srvUpdateServer i C)).1 (Event.srvComplete i)).2) := by
  have hlen : i < s.insts.length := by
    rcases List.getElem?_eq_some.mp hg with ⟨h1, _⟩
    exact h1
  have hmb : methodBlocked s inst = false := by
    simp [methodBlocked, hp, hco, hli]
  have h1 : step s (Event.srvUpdateServer i B) =
      ({ s with insts :=
           s.insts.set i { inst with replace := true, server := some B } },
       []) := by
    simp only [step, NetC.updateServer, hg]
    rw [if_neg (by simp [hmb])]
  rw [h1]
  have hg2 :
      getInst
        { s with insts :=
            s.insts.set i { inst with replace := true, server := some B } }
        i
      = some { inst with replace := true, server := some B } := by
    simpa [getInst] using List.getElem?_set_eq_of_lt _ hlen
  have h2 :
      step
        { s with insts :=
            s.insts.set i { inst with replace := true, server := some B } }
        (Event.srvUpdateServer i C) =
      ({ s with insts :=
           s.insts.set i { inst with replace := true, server := some C } },
       []) := by
    simp only [step, NetC.updateServer, hg2]
    rw [if_neg (by simp [methodBlocked, hp, hco, hli])]
    simp [List.set_set]
  rw [h2]
  have hg3 :
      getInst
        { s with insts :=
            s.insts.set i { inst with replace := true, server := some C } }
        i
      = some { inst with replace := true, server := some C } := by
    simpa [getInst] using List.getElem?_set_eq_of_lt _ hlen
  have h3 :
      step
        { s with insts :=
            s.insts.set i { inst with replace := true, server := some C } }
        (Event.srvComplete i) =
      ({ s with
          insts :=
            (s.insts.set i
              { inst with
                  replace := true, server := some C, completed := true })
              ++ [Inst.fresh],
          processing := true, stopRequest := false, inputBox := [],
          server := C },
       [Eff.handleInit C s.insts.length]) := by
    simp only [step, NetC.complete, hg3]
    rw [if_neg (by simp [methodBlocked, hp, hco, hli])]
    simp [List.set_set, List.length_set]
  rw [h3]
  refine ⟨rfl, rfl, rfl, rfl, rfl, ?_, ?_, ?_⟩
  · have hcat := List.getElem?_concat_length
      (s.insts.set i { inst with replace := true, server := some C,
                                 completed := true }) Inst.fresh
    rw [List.length_set] at hcat
    simp only [getInst]
    exact hcat
  · simp [step, handleSend]
  · intro hne j hmem
    simp at hmem
    exact hne hmem.1.symm

/-- Witness for Claim C2: from the boot state, registering servers 1
then 2 and completing invokes handleInit exactly once, for server 2,
on the freshly allocated display instance. -/
theorem server_swap_witness :
    initState.processing = true ∧
    getInst initState 0 = some Inst.fresh ∧
    Inst.fresh.completed = false ∧
    Inst.fresh.login = false ∧
    (step (step (step initState (Event.srvUpdateServer 0 1)).1
          (Event.srvUpdateServer 0 2)).1 (Event.srvComplete 0)).2
      = [Eff.handleInit 2 initState.insts.length] :=
  ⟨rfl, by decide, rfl, rfl,
   (server_swap initState 0 1 2 Inst.fresh rfl (by decide) rfl rfl).2.2.1⟩

theorem getElem?_append_some {l : List Inst} {i : Nat} {inst : Inst}
    (h : l[i]? = some inst) (v : Inst) : (l ++ [v])[i]? = some inst := by
  rcases List.getElem?_eq_some.mp h with ⟨hl, _⟩
  rw [List.getElem?_append, if_pos hl]
  exact h

theorem instCompleted_iff {s : CState} {i : Nat} :
    instCompleted s i = true ↔
      ∃ inst, getInst s i = some inst ∧ inst.completed = true := by
  unfold instCompleted
  cases h : getInst s i <;> simp

/-- Claim C3: complete() succeeds at most once per display instance:
a successful complete marks the instance exhausted, exhaustion is
preserved by every further event, and every method call on an
exhausted instance (checkStop, updateServer, showLogin, cls, print,
token, or complete again) throws the terminal state error, leaving the
state unchanged. -/
theorem completed_terminal :
    (∀ s i, Eff.threw ∉ (step s (Event.srvComplete i)).2 →
       instCompleted (step s (Event.srvComplete i)).1 i = true) ∧
    (∀ s e i, instCompleted s i = true →
       instCompleted (step s e).1 i = true) ∧
    (∀ s e i, instCompleted s i = true → Event.target e = some i →
       step s e = (s, [Eff.threw])) := by
  refine ⟨?_, ?_, ?_⟩
  · intro s i hok
    simp only [step, NetC.complete] at hok ⊢
    cases hg : getInst s i with
    | none => rw [hg] at hok; simp at hok
    | some inst =>
      by_cases hb : methodBlocked s inst = true
      · simp [hg, hb] at hok
      · have hlen : i < s.insts.length := by
          rcases List.getElem?_eq_some.mp
            (show s.insts[i]? = some inst from hg) with ⟨h1, _⟩
          exact h1
        have hset : (s.insts.set i { inst with completed := true })[i]?
            = some { inst with completed := true } :=
          List.getElem?_set_eq_of_lt _ hlen
        by_cases hr : inst.replace = true
        · rw [hr] at hset
          simp [hb, hr, instCompleted, getInst,
                getElem?_append_some hset Inst.fresh]
        · have hrf : inst.replace = false := by
            simpa using hr
          rw [hrf] at hset
          simp [hb, hrf, instCompleted, getInst, hset]
  · intro s e i hci
    obtain ⟨inst, hgi, hc⟩ := instCompleted_iff.mp hci
    have hg : s.insts[i]? = some inst := hgi
    have hins : ∀ v : Inst, v.completed = true →
        ∀ insts2 : List Inst, insts2[i]? = some v →
        ∀ s2 : CState, s2.insts = insts2 → instCompleted s2 i = true := by
      intro v hv insts2 h2 s2 hs2
      apply instCompleted_iff.mpr
      exact ⟨v, by simp [getInst, hs2, h2], hv⟩
    cases e with
    | userSend =>
      simp only [step, handleSend]
      split
      · exact hci
      · split
        · exact hci
        · exact hins inst hc _ (getElem?_append_some hg Inst.fresh) _ rfl
    | userStop =>
      simp only [step, handleStop]
      split
      · exact hci
      · split
        · exact hci
        · split
          · exact hci
          · exact hins inst hc _ hg _ rfl
    | userLogin r u p =>
      cases hsl : s.login with
      | false =>
        have hpost : step s (Event.userLogin r u p) = (s, []) := by
          simp [step, handleLoginResponse, hsl]
        rw [hpost]
        exact hci
      | true =>
        cases howner : s.loginOwner with
        | none =>
          have hpost : (step s (Event.userLogin r u p)).1 =
              { s with login := false } := by
            simp [step, handleLoginResponse, hsl, howner]
          rw [hpost]
          exact hins inst hc _ hg _ rfl
        | some j =>
          cases hj : s.insts[j]? with
          | none =>
            have hpost : (step s (Event.userLogin r u p)).1 =
                { s with login := false } := by
              simp [step, handleLoginResponse, hsl, howner, hj, apply_ite]
            rw [hpost]
            exact hins inst hc _ hg _ rfl
          | some instj =>
            have hpost : (step s (Event.userLogin r u p)).1 =
                { s with login := false,
                         insts :=
                           s.insts.set j { instj with login := false } } := by
              simp [step, handleLoginResponse, hsl, howner, hj, apply_ite]
            rw [hpost]
            by_cases hji : j = i
            · subst hji
              rw [hj] at hg
              injection hg with hg2
              subst hg2
              have hlen : j < s.insts.length := by
                rcases List.getElem?_eq_some.mp hj with ⟨h1, _⟩
                exact h1
              exact hins { instj with login := false } hc _
                (List.getElem?_set_eq_of_lt _ hlen) _ rfl
            · exact hins inst hc _
                (by rw [List.getElem?_set_ne hji]; exact hg) _ rfl
    | userType t =>
      simp only [step, typeInput]
      split
      · exact hci
      · exact hins inst hc _ hg _ rfl
    | srvCheckStop j =>
      simp only [step, NetC.checkStop]
      split
      · exact hci
      · split <;> exact hci
    | srvUpdateServer j srv =>
      simp only [step, NetC.updateServer]
      split
      · exact hci
      · rename_i instj hj
        split
        · exact hci
        · rename_i hb
          have hji : j ≠ i := by
            intro hji
            subst hji
            simp only [getInst] at hj
            rw [hj] at hg
            injection hg with hg2
            subst hg2
            simp [methodBlocked, hc] at hb
          exact hins inst hc _
            (by rw [List.getElem?_set_ne hji]; exact hg) _ rfl
    | srvShowLogin j site =>
      simp only [step, NetC.showLogin]
      split
      · exact hci
      · rename_i instj hj
        split
        · exact hci
        · rename_i hb
          have hji : j ≠ i := by
            intro hji
            subst hji
            simp only [getInst] at hj
            rw [hj] at hg
            injection hg with hg2
            subst hg2
            simp [methodBlocked, hc] at hb
          simp only [doLogin]
          split <;>
            exact hins inst hc _
              (by rw [List.getElem?_set_ne hji]; exact hg) _ rfl
    | srvCls j =>
      simp only [step, NetC.cls]
      split
      · exact hci
      · split
        · exact hci
        · exact hins inst hc _ hg _ rfl
    | srvPrint j m =>
      simp only [step, NetC.print]
      split
      · exact hci
      · split
        · exact hci
        · exact hins inst hc _ hg _ rfl
    | srvToken j t =>
      simp only [step, NetC.token]
      split
      · exact hci
      · split
        · exact hci
        · exact hins inst hc _ hg _ rfl
    | srvComplete j =>
      simp only [step, NetC.complete]
      split
      · exact hci
      · rename_i instj hj
        split
        · exact hci
        · rename_i hb
          have hji : j ≠ i := by
            intro hji
            subst hji
            simp only [getInst] at hj
            rw [hj] at hg
            injection hg with hg2
            subst hg2
            simp [methodBlocked, hc] at hb
          have hset : (s.insts.set j { instj with completed := true })[i]?
              = some inst := by
            rw [List.getElem?_set_ne hji]
            exact hg
          split
          · exact hins inst hc _ (getElem?_append_some hset Inst.fresh) _
              rfl
          · exact hins inst hc _ hset _ rfl
  · intro s e i hci ht
    obtain ⟨inst, hg, hc⟩ := instCompleted_iff.mp hci
    have hb : methodBlocked s inst = true := by
      simp [methodBlocked, hc]
    cases e <;> simp only [Event.target] at ht <;>
      try exact Option.noConfusion ht
    all_goals
      injection ht with hji
    all_goals
      subst hji
    · simp only [step, NetC.checkStop, hg]
      rw [if_pos hb]
    · simp only [step, NetC.updateServer, hg]
      rw [if_pos hb]
    · simp only [step, NetC.showLogin, hg]
      rw [if_pos hb]
    · simp only [step, NetC.cls, hg]
      rw [if_pos hb]
    · simp only [step, NetC.print, hg]
      rw [if_pos hb]
    · simp only [step, NetC.token, hg]
      rw [if_pos hb]
    · simp only [step, NetC.complete, hg]
      rw [if_pos hb]

/-- Witness for Claim C3: completing the boot instance succeeds once,
leaves it exhausted through a later event, and a second complete on it
throws. -/
theorem completed_terminal_witness :
    (Eff.threw ∉ (step initState (Event.srvComplete 0)).2 ∧
       instCompleted (step initState (Event.srvComplete 0)).1 0 = true) ∧
    (instCompleted idleState 0 = true ∧
       instCompleted (step idleState Event.userStop).1 0 = true) ∧
    (instCompleted idleState 0 = true ∧
       step idleState (Event.srvComplete 0) = (idleState, [Eff.threw])) :=
  ⟨⟨by decide, completed_terminal.1 initState 0 (by decide)⟩,
   ⟨by decide, completed_terminal.2.1 idleState Event.userStop 0 (by decide)⟩,
   ⟨by decide,
    completed_terminal.2.2 idleState (Event.srvComplete 0) 0 (by decide)
      (by decide)⟩⟩

theorem instLogin_iff {s : CState} {i : Nat} :
    instLogin s i = true ↔
      ∃ inst, getInst s i = some inst ∧ inst.login = true := by
  unfold instLogin
  cases h : getInst s i <;> simp

/-- Claim C4: opening a login dialog via showLogin marks both the
instance and the global login flags; those flags persist across every
event other than the login resolution; while the instance flag is set,
every method call on that display throws; while the global flag is
set, send and requestStop are inert and a further showLogin on any
instance throws; and the resolution event fires exactly one of the two
callbacks and closes the window. -/
theorem login_window (s : CState) (i : Nat) :
    (∀ inst site, getInst s i = some inst →
      methodBlocked s inst = false → s.login = false →
      (step s (Event.srvShowLogin i site)).2 = [] ∧
      (step s (Event.srvShowLogin i site)).1.login = true ∧
      instLogin (step s (Event.srvShowLogin i site)).1 i = true ∧
      (step s (Event.srvShowLogin i site)).1.loginOwner = some i) ∧
    (∀ e, (∀ r u p, e ≠ Event.userLogin r u p) → s.login = true →
      instLogin s i = true → s.loginOwner = some i →
      (step s e).1.login = true ∧ instLogin (step s e).1 i = true ∧
      (step s e).1.loginOwner = some i) ∧
    (instLogin s i = true → ∀ e, Event.target e = some i →
      step s e = (s, [Eff.threw])) ∧
    (s.login = true →
      step s Event.userSend = (s, []) ∧
      step s Event.userStop = (s, [])) ∧
    (s.login = true → ∀ j site,
      (step s (Event.srvShowLogin j site)).2 = [Eff.threw]) ∧
    (s.login = true → s.loginOwner = some i → ∀ r u p,
      (step s (Event.userLogin r u p)).2
        = (if r then [Eff.cbDone i u p] else [Eff.cbCancel i]) ∧
      (step s (Event.userLogin r u p)).1.login = false) := by
  refine ⟨?_, ?_, ?_, ?_, ?_, ?_⟩
  · intro inst site hg hb hl
    have hlen : i < s.insts.length := by
      rcases List.getElem?_eq_some.mp
        (show s.insts[i]? = some inst from hg) with ⟨h1, _⟩
      exact h1
    have hset : (s.insts.set i { inst with login := true })[i]?
        = some { inst with login := true } :=
      List.getElem?_set_eq_of_lt _ hlen
    have hg2 : s.insts[i]? = some inst := hg
    simp [step, NetC.showLogin, hg2, hb, doLogin, hl, instLogin, getInst,
          hset]
  · intro e hne hl hil howner
    obtain ⟨insti, hgi, hci⟩ := instLogin_iff.mp hil
    have hg : s.insts[i]? = some insti := hgi
    have hpres : ∀ insts2 : List Inst, insts2[i]? = some insti →
        ∀ s2 : CState, s2.insts = insts2 → s2.login = s.login →
        s2.loginOwner = s.loginOwner →
        s2.login = true ∧ instLogin s2 i = true ∧
        s2.loginOwner = some i := by
      intro insts2 h2 s2 hs2 hlg hlo
      refine ⟨by rw [hlg]; exact hl, ?_, by rw [hlo]; exact howner⟩
      apply instLogin_iff.mpr
      exact ⟨insti, by simp [getInst, hs2, h2], hci⟩
    have hji : ∀ (j : Nat) (instj : Inst), getInst s j = some instj →
        methodBlocked s instj = false → j ≠ i := by
      intro j instj hgj hbj heq
      subst heq
      simp only [getInst] at hgj
      rw [hgj] at hg
      injection hg with hg2
      subst hg2
      simp [methodBlocked, hci] at hbj
    cases e with
    | userSend =>
      have hpost : step s Event.userSend = (s, []) := by
        simp [step, handleSend, hl]
      rw [hpost]
      exact ⟨hl, hil, howner⟩
    | userStop =>
      have hpost : step s Event.userStop = (s, []) := by
        simp [step, handleStop, hl]
      rw [hpost]
      exact ⟨hl, hil, howner⟩
    | userLogin r u p => exact absurd rfl (hne r u p)
    | userType t =>
      simp only [step, typeInput]
      split
      · exact ⟨hl, hil, howner⟩
      · exact hpres _ hg _ rfl rfl rfl
    | srvCheckStop j =>
      simp only [step, NetC.checkStop]
      split
      · exact ⟨hl, hil, howner⟩
      · split
        · exact ⟨hl, hil, howner⟩
        · exact ⟨hl, hil, howner⟩
    | srvUpdateServer j srv =>
      simp only [step, NetC.updateServer]
      split
      · exact ⟨hl, hil, howner⟩
      · rename_i instj hgj
        split
        · exact ⟨hl, hil, howner⟩
        · rename_i hbj
          have hne2 : j ≠ i := hji j instj hgj (by simpa using hbj)
          exact hpres _
            (by rw [List.getElem?_set_ne hne2]; exact hg) _ rfl rfl rfl
    | srvShowLogin j site =>
      simp only [step, NetC.showLogin]
      split
      · exact ⟨hl, hil, howner⟩
      · rename_i instj hgj
        split
        · exact ⟨hl, hil, howner⟩
        · rename_i hbj
          have hne2 : j ≠ i := hji j instj hgj (by simpa using hbj)
          simp only [doLogin]
          split
          · exact hpres _
              (by rw [List.getElem?_set_ne hne2]; exact hg) _ rfl rfl rfl
          · rename_i hfl
            exact absurd hl (by simpa using hfl)
    | srvCls j =>
      simp only [step, NetC.cls]
      split
      · exact ⟨hl, hil, howner⟩
      · split
        · exact ⟨hl, hil, howner⟩
        · exact hpres _ hg _ rfl rfl rfl
    | srvPrint j m =>
      simp only [step, NetC.print]
      split
      · exact ⟨hl, hil, howner⟩
      · split
        · exact ⟨hl, hil, howner⟩
        · exact hpres _ hg _ rfl rfl rfl
    | srvToken j t =>
      simp only [step, NetC.token]
      split
      · exact ⟨hl, hil, howner⟩
      · split
        · exact ⟨hl, hil, howner⟩
        · exact hpres _ hg _ rfl rfl rfl
    | srvComplete j =>
      simp only [step, NetC.complete]
      split
      · exact ⟨hl, hil, howner⟩
      · rename_i instj hgj
        split
        · exact ⟨hl, hil, howner⟩
        · rename_i hbj
          have hne2 : j ≠ i := hji j instj hgj (by simpa using hbj)
          have hset : (s.insts.set j { instj with completed := true })[i]?
              = some insti := by
            rw [List.getElem?_set_ne hne2]
            exact hg
          split
          · exact hpres _ (getElem?_append_some hset Inst.fresh) _ rfl rfl
              rfl
          · exact hpres _ hset _ rfl rfl rfl
  · intro hil e ht
    obtain ⟨inst, hg, hc⟩ := instLogin_iff.mp hil
    have hb : methodBlocked s inst = true := by
      simp [methodBlocked, hc]
    cases e <;> simp only [Event.target] at ht <;>
      try exact Option.noConfusion ht
    all_goals
      injection ht with hji2
    all_goals
      subst hji2
    · simp only [step, NetC.checkStop, hg]
      rw [if_pos hb]
    · simp only [step, NetC.updateServer, hg]
      rw [if_pos hb]
    · simp only [step, NetC.showLogin, hg]
      rw [if_pos hb]
    · simp only [step, NetC.cls, hg]
      rw [if_pos hb]
    · simp only [step, NetC.print, hg]
      rw [if_pos hb]
    · simp only [step, NetC.token, hg]
      rw [if_pos hb]
    · simp only [step, NetC.complete, hg]
      rw [if_pos hb]
  · intro hl
    constructor
    · simp [step, handleSend, hl]
    · simp [step, handleStop, hl]
  · intro hl j site
    simp only [step, NetC.showLogin]
    cases hgj : getInst s j with
    | none => rfl
    | some instj =>
      by_cases hbj : methodBlocked s instj = true
      · simp [hbj]
      · simp [hbj, doLogin, hl]
  · intro hl howner r u p
    cases hj : s.insts[i]? with
    | none =>
      constructor
      · simp [step, handleLoginResponse, hl, howner, hj, apply_ite]
      · simp [step, handleLoginResponse, hl, howner, hj, apply_ite]
    | some insti =>
      constructor
      · simp [step, handleLoginResponse, hl, howner, hj, apply_ite]
      · simp [step, handleLoginResponse, hl, howner, hj, apply_ite]

/-- The client state in which the boot server has opened a login
dialog on its display instance. -/
def loginState : CState := (step initState (Event.srvShowLogin 0 [])).1

/-- Witness for Claim C4 at concrete states: the boot instance opens a
login; in the resulting state the window blocks print on that display,
keeps send and stop inert, refuses a second showLogin, and its
resolution fires exactly the done callback. -/
theorem login_window_witness :
    (getInst initState 0 = some Inst.fresh ∧
     methodBlocked initState Inst.fresh = false ∧
     initState.login = false ∧
     ((step initState (Event.srvShowLogin 0 [])).2 = [] ∧
      (step initState (Event.srvShowLogin 0 [])).1.login = true ∧
      instLogin (step initState (Event.srvShowLogin 0 [])).1 0 = true ∧
      (step initState (Event.srvShowLogin 0 [])).1.loginOwner
        = some 0)) ∧
    (instLogin loginState 0 = true ∧
     step loginState (Event.srvPrint 0 [])
       = (loginState, [Eff.threw])) ∧
    (loginState.login = true ∧
     step loginState Event.userSend = (loginState, []) ∧
     step loginState Event.userStop = (loginState, [])) ∧
    (step loginState (Event.srvShowLogin 0 [])).2 = [Eff.threw] ∧
    (loginState.loginOwner = some 0 ∧
     (step loginState (Event.userLogin true [] [])).2
       = (if true then [Eff.cbDone 0 [] []] else [Eff.cbCancel 0]) ∧
     (step loginState (Event.userLogin true [] [])).1.login = false) :=
  ⟨⟨by decide, by decide, by decide,
    (login_window initState 0).1 Inst.fresh [] (by decide) (by decide)
      (by decide)⟩,
   ⟨by decide,
    (login_window loginState 0).2.2.1 (by decide) (Event.srvPrint 0 [])
      (by decide)⟩,
   ⟨by decide,
    (login_window loginState 0).2.2.2.1 (by decide)⟩,
   (login_window loginState 0).2.2.2.2.1 (by decide) 0 [],
   ⟨by decide,
    (login_window loginState 0).2.2.2.2.2 (by decide) (by decide)
      true [] []⟩⟩

/-- Claim C9: when the user resolves a login dialog, the global login
flag and the owning instance's login block are both cleared strictly
before the done or cancel callback fires (the callback effect is
emitted in the already-cleared state); consequently cls, print, token
and complete on that same display instance succeed from inside the
callbacks, the enclosing operation still being live. -/
theorem login_callback_state (s : CState) (i : Nat) (inst : Inst)
    (hl : s.login = true) (howner : s.loginOwner = some i)
    (hg : getInst s i = some inst) (_hinl : inst.login = true)
    (hco : inst.completed = false) (hp : s.processing = true)
    (r : Bool) (u pw msg tk : List Char) :
    (step s (Event.userLogin r u pw)).1.login = false ∧
    getInst (step s (Event.userLogin r u pw)).1 i
      = some { inst with login := false } ∧
    (step s (Event.userLogin r u pw)).2
      = (if r then [Eff.cbDone i u pw] else [Eff.cbCancel i]) ∧
    (step (step s (Event.userLogin r u pw)).1 (Event.srvCls i)).2
      = [] ∧
    (step (step s (Event.userLogin r u pw)).1 (Event.srvPrint i msg)).2
      = [] ∧
    (step (step s (Event.userLogin r u pw)).1 (Event.srvToken i tk)).2
      = [] ∧
    Eff.threw ∉
      (step (step s (Event.userLogin r u pw)).1
        (Event.srvComplete i)).2 := by
  have hj : s.insts[i]? = some inst := hg
  have hlen : i < s.insts.length := by
    rcases List.getElem?_eq_some.mp hj with ⟨h1, _⟩
    exact h1
  have hpost : (step s (Event.userLogin r u pw)).1 =
      { s with login := false,
               insts := s.insts.set i { inst with login := false } } := by
    simp [step, handleLoginResponse, hl, howner, hj, apply_ite]
  have heff : (step s (Event.userLogin r u pw)).2
      = (if r then [Eff.cbDone i u pw] else [Eff.cbCancel i]) := by
    cases r <;> simp [step, handleLoginResponse, hl, howner, hj]
  have hset : (s.insts.set i { inst with login := false })[i]?
      = some { inst with login := false } :=
    List.getElem?_set_eq_of_lt _ hlen
  have hgp : getInst (step s (Event.userLogin r u pw)).1 i
      = some { inst with login := false } := by
    rw [hpost]
    simp only [getInst]
    exact hset
  have hset2 := hset
  rw [hco] at hset2
  refine ⟨by rw [hpost], hgp, heff, ?_, ?_, ?_, ?_⟩
  · rw [hpost]
    simp [step, NetC.cls, getInst, hset2, methodBlocked, hp, hco]
  · rw [hpost]
    simp [step, NetC.print, getInst, hset2, methodBlocked, hp, hco]
  · rw [hpost]
    simp [step, NetC.token, getInst, hset2, methodBlocked, hp, hco]
  · rw [hpost]
    simp only [step, NetC.complete, getInst, hset]
    rw [if_neg (by simp [methodBlocked, hp, hco])]
    by_cases hr : inst.replace = true <;> simp [hr]

/-- Witness for Claim C9: resolving the concrete login dialog opened
by the boot server fires the done callback with both login flags
already cleared, and print and complete succeed afterwards. -/
theorem login_callback_state_witness :
    (loginState.login = true ∧ loginState.loginOwner = some 0 ∧
     getInst loginState 0 = some { Inst.fresh with login := true } ∧
     loginState.processing = true) ∧
    ((step loginState (Event.userLogin true [] [])).1.login = false ∧
     getInst (step loginState (Event.userLogin true [] [])).1 0
       = some { { Inst.fresh with login := true } with login := false } ∧
     (step loginState (Event.userLogin true [] [])).2
       = (if true then [Eff.cbDone 0 [] []] else [Eff.cbCancel 0]) ∧
     (step (step loginState (Event.userLogin true [] [])).1
        (Event.srvCls 0)).2 = [] ∧
     (step (step loginState (Event.userLogin true [] [])).1
        (Event.srvPrint 0 [])).2 = [] ∧
     (step (step loginState (Event.userLogin true [] [])).1
        (Event.srvToken 0 [])).2 = [] ∧
     Eff.threw ∉
       (step (step loginState (Event.userLogin true [] [])).1
         (Event.srvComplete 0)).2) :=
  ⟨⟨by decide, by decide, by decide, by decide⟩,
   login_callback_state loginState 0 { Inst.fresh with login := true }
     (by decide) (by decide) (by decide) (by decide) (by decide)
     (by decide) true [] [] [] []⟩

/-- The invariant of Claim C5: whenever processing is false, the stop
request flag is false as well. -/
def stopInv (s : CState) : Prop :=
  s.processing = false → s.stopRequest = false

theorem stopInv_step (s : CState) (e : Event) (hinv : stopInv s) :
    stopInv (step s e).1 := by
  cases e with
  | userSend =>
    simp only [step, handleSend]
    split
    · exact hinv
    · split
      · exact hinv
      · intro h
        rfl
  | userStop =>
    simp only [step, handleStop]
    split
    · exact hinv
    · split
      · exact hinv
      · split
        · exact hinv
        · rename_i hnl hnp hns
          intro h
          exact absurd (show s.processing = false from h)
            (by simpa using hnp)
  | userLogin r u pw =>
    cases hsl : s.login with
    | false =>
      have hpost : step s (Event.userLogin r u pw) = (s, []) := by
        simp [step, handleLoginResponse, hsl]
      rw [hpost]
      exact hinv
    | true =>
      cases howner : s.loginOwner with
      | none =>
        have hpost : (step s (Event.userLogin r u pw)).1 =
            { s with login := false } := by
          simp [step, handleLoginResponse, hsl, howner]
        rw [hpost]
        exact hinv
      | some j =>
        cases hj : s.insts[j]? with
        | none =>
          have hpost : (step s (Event.userLogin r u pw)).1 =
              { s with login := false } := by
            simp [step, handleLoginResponse, hsl, howner, hj, apply_ite]
          rw [hpost]
          exact hinv
        | some instj =>
          have hpost : (step s (Event.userLogin r u pw)).1 =
              { s with login := false,
                       insts :=
                         s.insts.set j { instj with login := false } } := by
            simp [step, handleLoginResponse, hsl, howner, hj, apply_ite]
          rw [hpost]
          exact hinv
  | userType t =>
    simp only [step, typeInput]
    split
    · exact hinv
    · exact hinv
  | srvCheckStop j =>
    simp only [step, NetC.checkStop]
    split
    · exact hinv
    · split <;> exact hinv
  | srvUpdateServer j srv =>
    simp only [step, NetC.updateServer]
    split
    · exact hinv
    · split <;> exact hinv
  | srvShowLogin j site =>
    simp only [step, NetC.showLogin]
    split
    · exact hinv
    · split
      · exact hinv
      · simp only [doLogin]
        split <;> exact hinv
  | srvCls j =>
    simp only [step, NetC.cls]
    split
    · exact hinv
    · split <;> exact hinv
  | srvPrint j m =>
    simp only [step, NetC.print]
    split
    · exact hinv
    · split <;> exact hinv
  | srvToken j t =>
    simp only [step, NetC.token]
    split
    · exact hinv
    · split <;> exact hinv
  | srvComplete j =>
    simp only [step, NetC.complete]
    split
    · exact hinv
    · split
      · exact hinv
      · split
        · intro h
          rfl
        · intro h
          rfl

theorem stopInv_run (evs : List Event) :
    ∀ s : CState, stopInv s → stopInv (run s evs).1 := by
  induction evs with
  | nil => intro s h; exact h
  | cons e rest ih => intro s h; exact ih _ (stopInv_step s e h)

/-- Claim C5: in every state reachable from start-up, stopRequested is
false whenever processing is false: it is false initially, requestStop
does nothing at all when processing is false, and the invariant is
preserved by every event of the controller. -/
theorem stop_flag_invariant :
    initState.stopRequest = false ∧
    (∀ s : CState, s.processing = false →
      step s Event.userStop = (s, [])) ∧
    (∀ (s : CState) (e : Event), stopInv s → stopInv (step s e).1) ∧
    (∀ evs : List Event, (run initState evs).1.processing = false →
      (run initState evs).1.stopRequest = false) := by
  refine ⟨rfl, ?_, stopInv_step, ?_⟩
  · intro s hp
    by_cases hl : s.login = true
    · simp [step, handleStop, hl]
    · simp [step, handleStop, hl, hp]
  · intro evs
    exact stopInv_run evs initState (fun _ => rfl)

/-- Witness for Claim C5: the concrete trace that completes the boot
operation reaches a non-processing state whose stop flag is false, and
requestStop in that state is a no-op. -/
theorem stop_flag_invariant_witness :
    initState.stopRequest = false ∧
    (idleState.processing = false ∧
      step idleState Event.userStop = (idleState, [])) ∧
    ((run initState [Event.srvComplete 0]).1.processing = false ∧
      (run initState [Event.srvComplete 0]).1.stopRequest = false) :=
  ⟨stop_flag_invariant.1,
   ⟨by decide, stop_flag_invariant.2.1 idleState (by decide)⟩,
   ⟨by decide, stop_flag_invariant.2.2.2 [Event.srvComplete 0] (by decide)⟩⟩

/-- Counterexample to Claim C10 as stated: at start-up (processing
still true, no complete yet), a requestStop event is not a no-op —
it sets the stop request flag (and appends a console message). -/
theorem boot_stop_not_noop :
    initState.processing = true ∧ initState.stopRequest = false ∧
    (step initState Event.userStop).1.stopRequest = true ∧
    step initState Event.userStop ≠ (initState, []) := by
  refine ⟨rfl, rfl, by decide, ?_⟩
  intro h
  have h2 : (step initState Event.userStop).1.stopRequest
      = (initState, ([] : List Eff)).1.stopRequest := by rw [h]
  rw [show (step initState Event.userStop).1.stopRequest = true from
        by decide] at h2
  exact Bool.noConfusion h2

theorem handleMessage_effect (s : CState) (e : Event) (srv j : Nat)
    (m : List Char) (hmem : Eff.handleMessage srv j m ∈ (step s e).2) :
    e = Event.userSend ∧ s.processing = false ∧ s.login = false := by
  cases e with
  | userSend =>
    simp only [step, handleSend] at hmem
    split at hmem
    · simp at hmem
    · split at hmem
      · simp at hmem
      · rename_i hnl hnp
        exact ⟨rfl, by simpa using hnp, by simpa using hnl⟩
  | userStop =>
    simp only [step, handleStop] at hmem
    split at hmem
    · simp at hmem
    · split at hmem
      · simp at hmem
      · split at hmem
        · simp at hmem
        · simp at hmem
  | userLogin r u pw =>
    cases hsl : s.login with
    | false => simp [step, handleLoginResponse, hsl] at hmem
    | true =>
      cases howner : s.loginOwner with
      | none => simp [step, handleLoginResponse, hsl, howner] at hmem
      | some k =>
        cases hj : s.insts[k]? with
        | none =>
          cases r <;>
            simp [step, handleLoginResponse, hsl, howner, hj] at hmem
        | some instk =>
          cases r <;>
            simp [step, handleLoginResponse, hsl, howner, hj] at hmem
  | userType t =>
    simp only [step, typeInput] at hmem
    split at hmem <;> simp at hmem
  | srvCheckStop k =>
    simp only [step, NetC.checkStop] at hmem
    split at hmem
    · simp at hmem
    · split at hmem <;> simp at hmem
  | srvUpdateServer k srv2 =>
    simp only [step, NetC.updateServer] at hmem
    split at hmem
    · simp at hmem
    · split at hmem <;> simp at hmem
  | srvShowLogin k site =>
    simp only [step, NetC.showLogin] at hmem
    split at hmem
    · simp at hmem
    · split at hmem
      · simp at hmem
      · simp only [doLogin] at hmem
        split at hmem <;> simp at hmem
  | srvCls k =>
    simp only [step, NetC.cls] at hmem
    split at hmem
    · simp at hmem
    · split at hmem <;> simp at hmem
  | srvPrint k m2 =>
    simp only [step, NetC.print] at hmem
    split at hmem
    · simp at hmem
    · split at hmem <;> simp at hmem
  | srvToken k t =>
    simp only [step, NetC.token] at hmem
    split at hmem
    · simp at hmem
    · split at hmem <;> simp at hmem
  | srvComplete k =>
    simp only [step, NetC.complete] at hmem
    split at hmem
    · simp at hmem
    · split at hmem
      · simp at hmem
      · split at hmem <;> simp at hmem

/-- Claim C10 (amended): processing is initialized true at page load,
before any operation exists; while processing is true every send event
is a no-op and no handleMessage is ever invoked, requestStop never
invokes a server operation, and processing can only fall to false
through a successful complete() — hence no handleMessage can occur
before the boot server's handleInit operation has completed. -/
theorem boot_processing_gate :
    initState.processing = true ∧
    (∀ s : CState, s.processing = true →
      step s Event.userSend = (s, [])) ∧
    (∀ s : CState, (step s Event.userStop).2 = []) ∧
    (∀ (s : CState) (e : Event) (srv j : Nat) (m : List Char),
      s.processing = true →
      Eff.handleMessage srv j m ∉ (step s e).2) ∧
    (∀ (s : CState) (e : Event), s.processing = true →
      (step s e).1.processing = false →
      ∃ i, e = Event.srvComplete i ∧ Eff.threw ∉ (step s e).2) := by
  refine ⟨rfl, ?_, ?_, ?_, ?_⟩
  · intro s hp
    by_cases hl : s.login = true
    · simp [step, handleSend, hl]
    · simp [step, handleSend, hl, hp]
  · intro s
    simp only [step, handleStop]
    split
    · rfl
    · split
      · rfl
      · split
        · rfl
        · rfl
  · intro s e srv j m hp hmem
    obtain ⟨_, hpf, _⟩ := handleMessage_effect s e srv j m hmem
    rw [hp] at hpf
    exact Bool.noConfusion hpf
  · intro s e hp hdown
    cases e with
    | userSend =>
      have hpost : step s Event.userSend = (s, []) := by
        by_cases hl : s.login = true
        · simp [step, handleSend, hl]
        · simp [step, handleSend, hl, hp]
      rw [hpost] at hdown
      rw [hp] at hdown
      exact Bool.noConfusion hdown
    | userStop =>
      simp only [step, handleStop] at hdown
      split at hdown
      · rw [hp] at hdown; exact Bool.noConfusion hdown
      · split at hdown
        · rw [hp] at hdown; exact Bool.noConfusion hdown
        · split at hdown
          · rw [hp] at hdown; exact Bool.noConfusion hdown
          · exact Bool.noConfusion
              (hp.symm.trans (show s.processing = false from hdown))
    | userLogin r u pw =>
      cases hsl : s.login with
      | false =>
        have hpost : step s (Event.userLogin r u pw) = (s, []) := by
          simp [step, handleLoginResponse, hsl]
        rw [hpost] at hdown
        rw [hp] at hdown
        exact Bool.noConfusion hdown
      | true =>
        cases howner : s.loginOwner with
        | none =>
          have hpost : (step s (Event.userLogin r u pw)).1 =
              { s with login := false } := by
            simp [step, handleLoginResponse, hsl, howner]
          rw [hpost] at hdown
          exact Bool.noConfusion
            (hp.symm.trans (show s.processing = false from hdown))
        | some k =>
          cases hj : s.insts[k]? with
          | none =>
            have hpost : (step s (Event.userLogin r u pw)).1 =
                { s with login := false } := by
              simp [step, handleLoginResponse, hsl, howner, hj,
                    apply_ite]
            rw [hpost] at hdown
            exact Bool.noConfusion
              (hp.symm.trans (show s.processing = false from hdown))
          | some instk =>
            have hpost : (step s (Event.userLogin r u pw)).1 =
                { s with login := false,
                         insts :=
                           s.insts.set k
                             { instk with login := false } } := by
              simp [step, handleLoginResponse, hsl, howner, hj,
                    apply_ite]
            rw [hpost] at hdown
            exact Bool.noConfusion
              (hp.symm.trans (show s.processing = false from hdown))
    | userType t =>
      simp only [step, typeInput] at hdown
      rw [if_pos hp] at hdown
      rw [hp] at hdown
      exact Bool.noConfusion hdown
    | srvCheckStop k =>
      simp only [step, NetC.checkStop] at hdown
      split at hdown
      · rw [hp] at hdown; exact Bool.noConfusion hdown
      · split at hdown <;>
          (rw [hp] at hdown; exact Bool.noConfusion hdown)
    | srvUpdateServer k srv2 =>
      simp only [step, NetC.updateServer] at hdown
      split at hdown
      · rw [hp] at hdown; exact Bool.noConfusion hdown
      · split at hdown
        · rw [hp] at hdown; exact Bool.noConfusion hdown
        · rename_i instk hgk hbk
          exact Bool.noConfusion (hp.symm.trans hdown)
    | srvShowLogin k site =>
      simp only [step, NetC.showLogin] at hdown
      split at hdown
      · rw [hp] at hdown; exact Bool.noConfusion hdown
      · split at hdown
        · rw [hp] at hdown; exact Bool.noConfusion hdown
        · simp only [doLogin] at hdown
          split at hdown <;>
            exact Bool.noConfusion (hp.symm.trans hdown)
    | srvCls k =>
      simp only [step, NetC.cls] at hdown
      split at hdown
      · rw [hp] at hdown; exact Bool.noConfusion hdown
      · split at hdown
        · rw [hp] at hdown; exact Bool.noConfusion hdown
        · exact Bool.noConfusion (hp.symm.trans hdown)
    | srvPrint k m2 =>
      simp only [step, NetC.print] at hdown
      split at hdown
      · rw [hp] at hdown; exact Bool.noConfusion hdown
      · split at hdown
        · rw [hp] at hdown; exact Bool.noConfusion hdown
        · exact Bool.noConfusion (hp.symm.trans hdown)
    | srvToken k t =>
      simp only [step, NetC.token] at hdown
      split at hdown
      · rw [hp] at hdown; exact Bool.noConfusion hdown
      · split at hdown
        · rw [hp] at hdown; exact Bool.noConfusion hdown
        · exact Bool.noConfusion (hp.symm.trans hdown)
    | srvComplete k =>
      refine ⟨k, rfl, ?_⟩
      simp only [step, NetC.complete] at hdown ⊢
      split at hdown
      · rw [hp] at hdown; exact Bool.noConfusion hdown
      · rename_i instk hgk
        split at hdown
        · rw [hp] at hdown; exact Bool.noConfusion hdown
        · rename_i hbk
          rw [if_neg hbk]
          split at hdown
          · exact Bool.noConfusion hdown
          · rename_i hrk
            rw [if_neg hrk]
            simp

/-- Witness for Claim C10 (amended) at the concrete boot state: sends
are refused, a stop emits no server effect, no handleMessage effect is
possible, and the one event that ends processing is the successful
complete of the boot instance. -/
theorem boot_processing_gate_witness :
    initState.processing = true ∧
    step initState Event.userSend = (initState, []) ∧
    (step initState Event.userStop).2 = [] ∧
    Eff.handleMessage 0 1 [] ∉ (step initState (Event.srvPrint 0 [])).2 ∧
    ((step initState (Event.srvComplete 0)).1.processing = false ∧
      ∃ i, Event.srvComplete 0 = Event.srvComplete i ∧
        Eff.threw ∉ (step initState (Event.srvComplete 0)).2) :=
  ⟨boot_processing_gate.1,
   boot_processing_gate.2.1 initState rfl,
   boot_processing_gate.2.2.1 initState,
   boot_processing_gate.2.2.2.1 initState (Event.srvPrint 0 []) 0 1 []
     rfl,
   ⟨by decide,
    boot_processing_gate.2.2.2.2 initState (Event.srvComplete 0) rfl
      (by decide)⟩⟩

namespace Remote

/-- Modelled from the spec: the per-session server-side state of the
remote transaction protocol.  The method bodies of NetC::Remote are
@@TODO stubs in the repository, so the transaction algorithm is
modelled from its documentation: each session row persists the current
rotating secret key (ssnkey) under which the session context is
authenticated. -/
structure RSession where
  key : List Nat
deriving DecidableEq

/-- Modelled from the spec: the client-carried part of a transaction —
the opaque context byte string together with its authentication tag. -/
structure TxPacket where
  context : List Nat
  tag : List Nat
deriving DecidableEq

/-- Modelled from the spec: one remote transaction on an established
session.  mac stands for the HMAC-MD5 computation (an arbitrary
deterministic function of key and message); the submitted context is
authenticated under the session's current rotating key and the
transaction is rejected as session-invalid (none) on mismatch;
otherwise the embedding server logic observes the submitted context
and leaves a possibly rewritten one, which is returned to the client
re-authenticated under the freshly generated rotating key newKey that
is persisted in the session row. -/
def runTransaction (mac : List Nat → List Nat → List Nat)
    (ssn : RSession) (pkt : TxPacket) (logic : List Nat → List Nat)
    (newKey : List Nat) : Option (RSession × TxPacket) :=
  if mac ssn.key pkt.context = pkt.tag then
    some (⟨newKey⟩, ⟨logic pkt.context, mac newKey (logic pkt.context)⟩)
  else none

/-- Modelled from the spec: the context value the embedding logic of a
transaction observes (the context getter): the submitted bytes,
available only when authentication succeeded. -/
def observedContext (mac : List Nat → List Nat → List Nat)
    (ssn : RSession) (pkt : TxPacket) : Option (List Nat) :=
  if mac ssn.key pkt.context = pkt.tag then some pkt.context else none

/-- Claim C6: for two consecutive transactions of a session with no
tampering — the next request submits exactly the context and tag the
previous response returned — the next transaction authenticates
successfully and observes, byte for byte, the context as it stood at
the end of the previous transaction; moreover it completes for any
embedding logic and fresh key. -/
theorem context_roundtrip (mac : List Nat → List Nat → List Nat)
    (ssn : RSession) (pkt : TxPacket) (logic : List Nat → List Nat)
    (newKey : List Nat) (ssn2 : RSession) (resp : TxPacket)
    (h : runTransaction mac ssn pkt logic newKey = some (ssn2, resp)) :
    observedContext mac ssn2 resp = some resp.context ∧
    ∀ (logic2 : List Nat → List Nat) (newKey2 : List Nat),
      runTransaction mac ssn2 resp logic2 newKey2 =
        some (⟨newKey2⟩,
              ⟨logic2 resp.context,
               mac newKey2 (logic2 resp.context)⟩) := by
  unfold runTransaction at h
  split at h
  · rw [Option.some.injEq, Prod.mk.injEq] at h
    obtain ⟨hs, hr⟩ := h
    subst hs
    subst hr
    constructor
    · unfold observedContext
      rw [if_pos rfl]
    · intro logic2 newKey2
      unfold runTransaction
      rw [if_pos rfl]
  · exact Option.noConfusion h

/-- Witness for Claim C6 at a concrete MAC, session, packet and
logic. -/
theorem context_roundtrip_witness :
    runTransaction (fun k c => k ++ c) ⟨[1]⟩ ⟨[], [1]⟩
        (fun c => 7 :: c) [2]
      = some (⟨[2]⟩, ⟨[7], [2, 7]⟩) ∧
    observedContext (fun k c => k ++ c) ⟨[2]⟩ ⟨[7], [2, 7]⟩
      = some [7] :=
  ⟨rfl,
   (context_roundtrip (fun k c => k ++ c) ⟨[1]⟩ ⟨[], [1]⟩
      (fun c => 7 :: c) [2] ⟨[2]⟩ ⟨[7], [2, 7]⟩ rfl).1⟩

end Remote

/-- A row of the ssn table created by netc_createdb.pl: session id,
session code, activity minute timestamp, rotating key text, owning
user id. -/
structure SsnRow where
  ssnid : Nat
  ssncode : Nat
  ssntime : Nat
  ssnkey : List Char
  usrid : Nat

/-- The constraints netc_createdb.pl places on the ssn table: ssncode
is UNIQUE (ix_ssn_code), and per the schema documentation every code
lies in the range [0, 16777215]. -/
def ssnTableOk (rows : List SsnRow) : Prop :=
  (∀ r ∈ rows, r.ssncode ≤ 16777215) ∧
  rows.Pairwise (fun a b => a.ssncode ≠ b.ssncode)

/-- The four base-64 digits of a session code, most significant
first. -/
def base64Digits4 (n : Nat) : List Nat :=
  [n / (64 * 64 * 64) % 64, n / (64 * 64) % 64, n / 64 % 64, n % 64]

/-- Reading a base-64 digit string back as a number. -/
def ofBase64Digits (ds : List Nat) : Nat :=
  ds.foldl (fun acc d => acc * 64 + d) 0

/-- Claim C8: 64^4 = 16777216, so every integer in the documented code
range [0, 16777215] is representable in exactly four base-64 digits,
the representation is faithful (it decodes back, injectively), and in
any schema-conforming ssn table the codes are pairwise distinct and
each stored ssncode fits in exactly four base-64 digits. -/
theorem ssncode_four_digits :
    64 ^ 4 = 16777216 ∧
    (∀ n : Nat, n ≤ 16777215 →
      (base64Digits4 n).length = 4 ∧
      (∀ d ∈ base64Digits4 n, d < 64) ∧
      ofBase64Digits (base64Digits4 n) = n) ∧
    (∀ m n : Nat, m ≤ 16777215 → n ≤ 16777215 →
      base64Digits4 m = base64Digits4 n → m = n) ∧
    (∀ rows : List SsnRow, ssnTableOk rows →
      rows.Pairwise (fun a b => a.ssncode ≠ b.ssncode) ∧
      ∀ r ∈ rows, (base64Digits4 r.ssncode).length = 4 ∧
        ofBase64Digits (base64Digits4 r.ssncode) = r.ssncode) := by
  have hdec : ∀ n : Nat, n ≤ 16777215 →
      ofBase64Digits (base64Digits4 n) = n := by
    intro n hn
    simp only [base64Digits4, ofBase64Digits, List.foldl]
    omega
  refine ⟨by norm_num, ?_, ?_, ?_⟩
  · intro n hn
    refine ⟨rfl, ?_, hdec n hn⟩
    intro d hd
    simp [base64Digits4] at hd
    omega
  · intro m n hm hn heq
    rw [← hdec m hm, ← hdec n hn, heq]
  · intro rows hok
    refine ⟨hok.2, ?_⟩
    intro r hr
    exact ⟨rfl, hdec r.ssncode (hok.1 r hr)⟩

/-- Witness for Claim C8: a concrete in-range code and a concrete
one-row conforming table. -/
theorem ssncode_four_digits_witness :
    (16777215 ≤ 16777215 ∧
      ((base64Digits4 16777215).length = 4 ∧
       (∀ d ∈ base64Digits4 16777215, d < 64) ∧
       ofBase64Digits (base64Digits4 16777215) = 16777215)) ∧
    (ssnTableOk [⟨1, 5, 0, [], 1⟩] ∧
      ([⟨1, 5, 0, [], 1⟩] : List SsnRow).Pairwise
          (fun a b => a.ssncode ≠ b.ssncode) ∧
      ∀ r ∈ ([⟨1, 5, 0, [], 1⟩] : List SsnRow),
        (base64Digits4 r.ssncode).length = 4 ∧
        ofBase64Digits (base64Digits4 r.ssncode) = r.ssncode) :=
  ⟨⟨by decide, ssncode_four_digits.2.1 16777215 (by decide)⟩,
   ⟨⟨by simp, by simp⟩,
    ssncode_four_digits.2.2.2 [⟨1, 5, 0, [], 1⟩] ⟨by simp, by simp⟩⟩⟩

end NetConsole
